import Mathlib

/-!
Verification development for the pdf_collate repository (src/entry.py).

The Python program watches a directory for scanned PDF files, OCRs each new
file, and — when two files arrived close together in time — collates their
outputs into one double-sided document.  We embed the state-manipulating
logic of `src/entry.py` shallowly:

* machine state touched by the program (existing directories and files,
  the pickled "latest record", a trace of external-tool invocations) is a
  `World` value threaded explicitly;
* external effects whose outcome the program merely observes (OCR and
  merge-tool exit status, the readiness polls of `os.path.exists` /
  `os.path.getsize`) are oracles supplied as inputs;
* Python exceptions become `Except Err` results; the handlers in the source
  catch exactly `NonFatalError` and `FileNotFoundError`, which the embedding
  mirrors.

Times are modelled as integral epoch seconds (`Int`).  Python's
`timedelta.seconds` attribute on the difference of two such times is the
day-normalised seconds component, i.e. `(t₂ - t₁) % 86400` with a
floor/euclidean modulus, which coincides with Lean's `Int` `%` for the
positive modulus 86400.
-/

namespace PdfCollate

/-- Errors a run can surface.  `nonFatal` is the source's `NonFatalError`;
`fileNotFound` is Python's `FileNotFoundError`; `valueError` is the
`ValueError` raised by `get_out_name` when no output directory is known;
`indexError` is the `IndexError` of `files[-1]` on an empty list;
`unboundLocal` is Python's `UnboundLocalError` (a local variable read before
any assignment). -/
inductive Err where
  | nonFatal
  | fileNotFound
  | valueError
  | indexError
  | unboundLocal
  deriving DecidableEq, Repr

/-- `MON_DIR` constant of entry.py. -/
def MON_DIR : String := "/input"

/-- `OUT_DIR` constant of entry.py. -/
def OUT_DIR : String := "/out"

/-- `os.path.join` for the absolute-directory + relative-name uses in
entry.py. -/
def path_join (a b : String) : String := a ++ "/" ++ b

/-- `os.path.basename`: the part of the path after the last slash. -/
def basename (s : String) : String :=
  ⟨(s.data.reverse.takeWhile (fun c => c ≠ '/')).reverse⟩

/-- Whether `pre` is a string prefix of `s` (used to model which files live
inside a directory subtree for `shutil.rmtree` / `shutil.move`). -/
def str_has_pref (pre s : String) : Bool := pre.data.isPrefixOf s.data

/-- Drop the first `n` characters of a string. -/
def str_drop (s : String) (n : Nat) : String := ⟨s.data.drop n⟩

/-- Abstract rendering of `self.mtime.strftime("%Y-%m-%dT%H_%M_%S")`.  The
concrete calendar string depends on the host's local timezone (Python's
`datetime.fromtimestamp`), which is outside the model; we keep the property
the program relies on — the label is a function of the arrival time alone —
by rendering the epoch second count. -/
def timestamp_of (t : Int) : String := "ts" ++ toString t

/-- Abstract rendering of `self.mtime.date().isoformat()` (same timezone
caveat as `timestamp_of`). -/
def date_of (t : Int) : String := "date" ++ toString t

/-- The fixed language list `("eng", "deu")` of `Pdf.ocr` / `Pdf.collate`. -/
def langs : List String := ["eng", "deu"]

/-- External-tool invocations recorded in the world's trace. -/
inductive Event where
  | ocrCall (lang : String) (src out : String)
  | collateCall (lang : String) (front back out : String)
  deriving DecidableEq, Repr

/-- Is this event an invocation of the merge tool (`qpdf --collate`)? -/
def Event.isCollate : Event → Bool
  | .collateCall _ _ _ _ => true
  | _ => false

/-- The `Pdf` class of entry.py: one input pdf file.  `name` is the absolute
input path, `mtime` the file's modification time at acceptance (epoch
seconds), `timestamp` the strftime label computed in `__init__`, `out` the
output directory (set by `process`), `prev` the previously processed
record. -/
inductive Pdf where
  | mk (name : String) (mtime : Int) (timestamp : String) (out : Option String) (prev : Option Pdf)

def Pdf.name : Pdf → String
  | .mk n _ _ _ _ => n

def Pdf.mtime : Pdf → Int
  | .mk _ t _ _ _ => t

def Pdf.timestamp : Pdf → String
  | .mk _ _ ts _ _ => ts

def Pdf.out : Pdf → Option String
  | .mk _ _ _ o _ => o

def Pdf.prev : Pdf → Option Pdf
  | .mk _ _ _ _ p => p

/-- `Pdf.__init__(name, prev)`: record the current mtime, compute the
timestamp label, no output directory yet. -/
def Pdf.init (name : String) (mtime : Int) (prev : Option Pdf) : Pdf :=
  .mk name mtime (timestamp_of mtime) none prev

/-- `self.out = o` on an immutable record. -/
def Pdf.withOut (p : Pdf) (o : Option String) : Pdf :=
  .mk p.name p.mtime p.timestamp o p.prev

/-- The mutation `x.prev = None` applied to a record `x`. -/
def Pdf.truncatePrev : Pdf → Pdf
  | .mk n t ts o _ => .mk n t ts o none

/-- The effect, on the record about to be saved, of `if prev: prev.prev =
None` in `process_one_file`: the record's predecessor (the very object the
Python `prev` variable aliases) loses its own predecessor. -/
def Pdf.truncate_chain (p : Pdf) : Pdf :=
  .mk p.name p.mtime p.timestamp p.out (p.prev.map Pdf.truncatePrev)

/-- Machine state: existing directories and files (full paths), the pickled
latest record (`save_latest` / `load_latest`), and the trace of external
tool invocations. -/
structure World where
  dirs : List String
  files : List String
  saved : Option Pdf
  trace : List Event

def emptyWorld : World := ⟨[], [], none, []⟩

/-- `os.path.exists`. -/
def World.path_exists (w : World) (p : String) : Bool :=
  w.dirs.contains p || w.files.contains p

def World.addFile (w : World) (f : String) : World :=
  { w with files := f :: w.files }

def World.addDir (w : World) (d : String) : World :=
  { w with dirs := d :: w.dirs }

/-- `shutil.rmtree`: remove the directory and everything under it. -/
def World.rmtree (w : World) (d : String) : World :=
  { w with dirs := w.dirs.filter (fun x => x ≠ d),
           files := w.files.filter (fun f => ¬ str_has_pref (d ++ "/") f) }

/-- `shutil.move src dst` where `dst` does not exist: rename the directory,
carrying its contents along. -/
def World.moveDir (w : World) (src dst : String) : World :=
  { w with dirs := dst :: w.dirs.filter (fun x => x ≠ src),
           files := w.files.map (fun f =>
             if str_has_pref (src ++ "/") f
             then dst ++ "/" ++ str_drop f (src.length + 1) else f) }

/-- `save_latest`: pickle the record. -/
def World.save (w : World) (p : Pdf) : World := { w with saved := some p }

/-- `load_latest`: unpickle the record, `none` if never saved. -/
def World.load_latest (w : World) : Option Pdf := w.saved

/-- Append an external-tool invocation to the trace. -/
def World.log (w : World) (e : Event) : World := { w with trace := w.trace ++ [e] }

/-- How many merge-tool invocations the trace records. -/
def World.collate_calls (w : World) : Nat := (w.trace.filter Event.isCollate).length

/-- Outcomes of the external tools: for each language, does the `ocrmypdf`
(resp. `qpdf --collate`) invocation exit successfully? -/
structure Env where
  ocr_ok : String → Bool
  collate_ok : String → Bool

def env_all_ok : Env := ⟨fun _ => true, fun _ => true⟩

/-- The per-candidate oracles `process_one_file` consumes: the readiness
observations (attempt index ↦ `none` if the file does not exist, `some sz`
its size), the mtime `os.path.getmtime` reports when the `Pdf` is built, the
fresh directory `tempfile.mkdtemp` returns, and the tool outcomes. -/
structure JobData where
  obs : Nat → Option Nat
  mtime : Int
  temp : String
  env : Env

/-- `Pdf.get_out_name(lang, out_dir, collated)`: build the output file name
under `out_dir` if given, else under `self.out`; `none` models the
`ValueError` when neither is set. -/
def Pdf.get_out_name (p : Pdf) (lang : String) (out_dir : Option String) (collated : Bool) :
    Option String :=
  let collated_str := if collated then "_collated" else ""
  match out_dir with
  | some o => some (path_join o (date_of p.mtime) ++ "_" ++ lang ++ collated_str ++ ".pdf")
  | none =>
    match p.out with
    | some o => some (path_join o (date_of p.mtime) ++ "_" ++ lang ++ collated_str ++ ".pdf")
    | none => none

/-- The `%s_%02d` suffix formatting of `get_new_out_dir_name` for `i` in
1..10. -/
def fmt02 (i : Nat) : String := if i < 10 then "0" ++ toString i else toString i

/-- The probe loop of `get_new_out_dir_name`: try `out_NN` for each `i` in
the list, keeping the base name if every variant exists. -/
def probe_variants (w : World) (out : String) : List Nat → String
  | [] => out
  | i :: rest =>
    let test_name := out ++ "_" ++ fmt02 i
    if w.path_exists test_name then probe_variants w out rest else test_name

/-- `Pdf.get_new_out_dir_name`: the timestamp-named directory, or the first
free of the variants `_01`…`_10` if the base name is taken; `NonFatalError`
if base and all ten variants exist. -/
def Pdf.get_new_out_dir_name (p : Pdf) (w : World) : Except Err String :=
  let out0 := path_join OUT_DIR p.timestamp
  let out := if w.path_exists out0 then probe_variants w out0 (List.range' 1 10) else out0
  if w.path_exists out then .error .nonFatal else .ok out

/-- The `for lang in ("eng", "deu")` body of `Pdf.ocr`: invoke `ocrmypdf`
per language (recorded in the trace), writing the per-language output into
`out_dir` on success, raising `NonFatalError` on a failed invocation. -/
def Pdf.ocr_go (p : Pdf) (env : Env) (out_dir : String) :
    List String → World → World × Except Err Unit
  | [], w => (w, .ok ())
  | l :: rest, w =>
    let outName := (p.get_out_name l (some out_dir) false).getD ""
    let w1 := w.log (.ocrCall l p.name outName)
    if env.ocr_ok l then Pdf.ocr_go p env out_dir rest (w1.addFile outName)
    else (w1, .error .nonFatal)

/-- `Pdf.ocr(out_dir)`. -/
def Pdf.ocr (p : Pdf) (env : Env) (out_dir : String) (w : World) : World × Except Err Unit :=
  p.ocr_go env out_dir langs w

/-- The `for lang in ("eng", "deu")` body of `Pdf.collate`: build the three
file names (raising `ValueError` if a record has no output directory),
invoke the merge tool (recorded), write the collated file on success, raise
`NonFatalError` on a failed invocation. -/
def Pdf.collate_go (p q : Pdf) (env : Env) :
    List String → World → World × Except Err Unit
  | [], w => (w, .ok ())
  | l :: rest, w =>
    match q.get_out_name l none false, p.get_out_name l none false,
          q.get_out_name l none true with
    | some front, some back, some outName =>
      let w1 := w.log (.collateCall l front back outName)
      if env.collate_ok l then Pdf.collate_go p q env rest (w1.addFile outName)
      else (w1, .error .nonFatal)
    | _, _, _ => (w, .error .valueError)

/-- `Pdf.collate`: collate this pdf (back pages) with the previous one `q`
(front pages). -/
def Pdf.collate (p : Pdf) (q : Pdf) (env : Env) (w : World) : World × Except Err Unit :=
  Pdf.collate_go p q env langs w

/-- The `try` block of `Pdf.process`: make the scratch directory, OCR into
it, allocate the permanent output directory, move the scratch directory
there; on any failure remove the scratch directory and re-raise. -/
def Pdf.place (p : Pdf) (env : Env) (temp : String) (w : World) : World × Except Err Pdf :=
  let w0 := w.addDir temp
  match p.ocr env temp w0 with
  | (w1, .error e) => (w1.rmtree temp, .error e)
  | (w1, .ok ()) =>
    match p.get_new_out_dir_name w1 with
    | .error e => (w1.rmtree temp, .error e)
    | .ok outd => ((w1.moveDir temp outd), .ok (p.withOut (some outd)))

/-- `Pdf.process`: place the output, then — when a previous record exists
and the day-normalised seconds component of the arrival-time difference is
not above 60 — collate with it.  A collate failure propagates (it is raised
outside the `try` block). -/
def Pdf.process (p : Pdf) (env : Env) (temp : String) (w : World) : World × Except Err Pdf :=
  match p.place env temp w with
  | (w1, .error e) => (w1, .error e)
  | (w1, .ok p1) =>
    match p1.prev with
    | none => (w1, .ok p1)
    | some q =>
      if (p1.mtime - q.mtime) % 86400 > 60 then (w1, .ok p1)
      else
        match p1.collate q env w1 with
        | (w2, .ok ()) => (w2, .ok p1)
        | (w2, .error e) => (w2, .error e)

/-- `time.sleep(5)` after each zero-length poll. -/
def retry_delay : Nat := 5

/-- `range(10)`: the readiness poll budget. -/
def retry_attempts : Nat := 10

/-- The `for i in range(10)` readiness loop of `process_one_file`, returning
the outcome and the total seconds slept.  Each iteration: raise
`NonFatalError` if the file does not exist; break (proceed) if it has
non-zero size; otherwise sleep 5 seconds and retry.  When the range is
exhausted the loop simply ends and processing proceeds — there is no
abandonment on budget exhaustion. -/
def wait_for_file (obs : Nat → Option Nat) : Nat → Nat → Except Err Unit × Nat
  | _, 0 => (.ok (), 0)
  | i, fuel + 1 =>
    match obs i with
    | none => (.error .nonFatal, 0)
    | some sz =>
      if sz = 0 then
        let r := wait_for_file obs (i + 1) fuel
        (r.1, retry_delay + r.2)
      else (.ok (), 0)

/-- The whole readiness loop, starting at attempt 0 with the full budget. -/
def wait_ready (obs : Nat → Option Nat) : Except Err Unit × Nat :=
  wait_for_file obs 0 retry_attempts

/-- `process_one_file(fname, prev)`: readiness loop, build the record,
`Pdf.process`, truncate the predecessor chain (`prev.prev = None`), pickle
the record (`save_latest`), return it. -/
def process_one_file (fname : String) (jd : JobData) (prev : Option Pdf) (w : World) :
    World × Except Err Pdf :=
  let name := path_join MON_DIR fname
  match (wait_ready jd.obs).1 with
  | .error e => (w, .error e)
  | .ok () =>
    let pdf := Pdf.init name jd.mtime prev
    match pdf.process jd.env jd.temp w with
    | (w1, .error e) => (w1, .error e)
    | (w1, .ok pdf1) =>
      let pdf2 := pdf1.truncate_chain
      (w1.save pdf2, .ok pdf2)

/-- One insertion step of a stable ascending sort by modification time:
place `x` before the first element whose key is not smaller, so that
elements with equal keys keep their original relative order — the behaviour
of Python's stable `sorted(files, key=lambda f: f[0])`. -/
def insort (x : Int × String) : List (Int × String) → List (Int × String)
  | [] => [x]
  | y :: ys => if x.1 ≤ y.1 then x :: y :: ys else y :: insort x ys

/-- `sorted(files, key=lambda f: f[0])`: stable ascending sort by the
modification time alone (the name is NOT part of the key). -/
def sort_by_mtime : List (Int × String) → List (Int × String)
  | [] => []
  | x :: xs => insort x (sort_by_mtime xs)

/-- `bisect_right(keys, x)` on an ascending `keys` list: the number of
leading elements that are `≤ x`. -/
def bisect_right (keys : List Int) (x : Int) : Nat :=
  (keys.takeWhile (fun k => k ≤ x)).length

/-- Drop the head of the already-selected suffix when it is the prior
record's own source file (`if files[i][1] == basename(latest.name): i += 1`
acting on the suffix `files[i:]`). -/
def skip_own (lname : String) : List (Int × String) → List (Int × String)
  | [] => []
  | f :: rest => if f.2 = lname then rest else f :: rest

/-- The pure candidate-selection logic of `process_offline_files`: given the
prior record's key data (`mtime`, basename of its source path) and the
directory listing (in `os.listdir` order, each entry with its mtime),
compute which entries the loop will process and in what order.
Mirrors the source statement by statement: sort by mtime; with a prior
record, read `files[-1]` (IndexError on an empty directory) and return
immediately when nothing is newer; otherwise `bisect_right` (only when the
list has at least two entries), skip the prior record's own file if it sits
at the resulting index, and keep the remaining suffix. -/
def process_offline_select (latest : Option (Int × String)) (listing : List (Int × String)) :
    Except Err (List (Int × String)) :=
  let files := sort_by_mtime listing
  match latest with
  | none => .ok files
  | some (lt, lname) =>
    match files.getLast? with
    | none => .error .indexError
    | some last =>
      if lt ≥ last.1 then .ok []
      else
        let keys := files.map Prod.fst
        let i := if keys.length ≥ 2 then bisect_right keys lt else 0
        let i :=
          match files[i]? with
          | some f => if f.2 = lname then i + 1 else i
          | none => i
        .ok (files.drop i)

/-- The `for cur_file in files` loop of `process_offline_files`: process
each selected entry, threading the last successfully processed record as
the predecessor of the next; `NonFatalError` and `FileNotFoundError` are
caught and the loop continues with the old predecessor; any other exception
propagates. -/
def offline_loop (jobs : String → JobData) :
    List (Int × String) → Option Pdf → World → World × Except Err (Option Pdf)
  | [], ret, w => (w, .ok ret)
  | f :: rest, ret, w =>
    match process_one_file f.2 (jobs f.2) ret w with
    | (w1, .ok pdf) => offline_loop jobs rest (some pdf) w1
    | (w1, .error .nonFatal) => offline_loop jobs rest ret w1
    | (w1, .error .fileNotFound) => offline_loop jobs rest ret w1
    | (w1, .error e) => (w1, .error e)

/-- `process_offline_files(latest_pdf)`: select the entries to process,
then run the processing loop over them. -/
def process_offline_files (latest : Option Pdf) (listing : List (Int × String))
    (jobs : String → JobData) (w : World) : World × Except Err (Option Pdf) :=
  match process_offline_select (latest.map fun p => (p.mtime, basename p.name)) listing with
  | .error e => (w, .error e)
  | .ok sel => offline_loop jobs sel latest w

/-- `inotify_loop`, run over a finite sequence of CREATE notifications.
The loop state models the Python local variable `prev_pdf`: the outer
`Option` is `none` while the local has never been assigned (reading it then
raises `UnboundLocalError` — which the source does on the very first event,
since `prev_pdf` is read on the right-hand side of its only assignment);
the handler catches only `NonFatalError` and `FileNotFoundError`. -/
def inotify_loop_run (jobs : String → JobData) :
    List String → Option (Option Pdf) → World → World × Except Err (Option (Option Pdf))
  | [], st, w => (w, .ok st)
  | ename :: rest, st, w =>
    match st with
    | none => (w, .error .unboundLocal)
    | some prev =>
      match process_one_file ename (jobs ename) prev w with
      | (w1, .ok pdf) => inotify_loop_run jobs rest (some (some pdf)) w1
      | (w1, .error .nonFatal) => inotify_loop_run jobs rest (some prev) w1
      | (w1, .error .fileNotFound) => inotify_loop_run jobs rest (some prev) w1
      | (w1, .error e) => (w1, .error e)

/-- Lexicographic character-code comparison on strings (an executable
rendering of string ordering used only by the spec-modelled sort). -/
def chars_le : List Char → List Char → Bool
  | [], _ => true
  | _ :: _, [] => false
  | a :: as, b :: bs =>
    if a.toNat < b.toNat then true
    else if b.toNat < a.toNat then false
    else chars_le as bs

def str_le (a b : String) : Bool := chars_le a.data b.data

/-- Modelled from the spec: the ordering the spec claims for the offline
catch-up — ascending by modification time with ties broken by file name.
(The source sorts by modification time alone; this definition exists to be
compared against `sort_by_mtime`.) -/
def spec_time_name_sort_step (x : Int × String) :
    List (Int × String) → List (Int × String)
  | [] => [x]
  | y :: ys =>
    if x.1 < y.1 ∨ (x.1 = y.1 ∧ str_le x.2 y.2 = true) then x :: y :: ys
    else y :: spec_time_name_sort_step x ys

/-- Modelled from the spec: sort ascending by (time, name). -/
def spec_time_name_sort : List (Int × String) → List (Int × String)
  | [] => []
  | x :: xs => spec_time_name_sort_step x (spec_time_name_sort xs)

/-- The ordering key of the directory scan: compare entries by modification
time alone. -/
def keyLE (a b : Int × String) : Prop := a.1 ≤ b.1

/-- The timestamp-named base output directory of a record. -/
def out_base (p : Pdf) : String := path_join OUT_DIR p.timestamp

/-- The `i`-th numbered variant of the base output directory. -/
def out_variant (p : Pdf) (i : Nat) : String := out_base p ++ "_" ++ fmt02 i

/-! Concrete instances used by witnesses and counterexamples. -/

/-- Tool outcomes where OCR succeeds and every merge invocation fails. -/
def envCF : Env := ⟨fun _ => true, fun _ => false⟩

/-- A previously processed record with a placed output directory. -/
def q0 : Pdf := Pdf.mk "/input/q" 0 (timestamp_of 0) (some "/out/q") none

/-- A record arriving exactly 60 seconds after `q0`. -/
def p60 : Pdf := Pdf.init "/input/p" 60 (some q0)

/-- A record arriving one day and 30 seconds after `q0`. -/
def p86430 : Pdf := Pdf.init "/input/p2" 86430 (some q0)

/-- A record two steps back in the chain. -/
def Z0 : Pdf := Pdf.init "/input/z" (-100) none

/-- A processed record whose `prev` is still `Z0` (an untruncated chain). -/
def A0 : Pdf := Pdf.mk "/input/a" 0 (timestamp_of 0) (some "/out/a") (some Z0)

/-- A candidate 10 seconds after `A0`, readable at once, whose merge
invocation will fail. -/
def jdB : JobData := ⟨fun _ => some 3, 10, "/tmpb", envCF⟩

/-- A candidate file that exists but stays zero-length forever. -/
def jd0 : JobData := ⟨fun _ => some 0, 100, "/tmp0", env_all_ok⟩

/-- A healthy candidate: non-empty at once, both tools succeed. -/
def jd1 : JobData := ⟨fun _ => some 7, 100, "/tmp1", env_all_ok⟩

/-- A record with no output allocated and a fixed timestamp label. -/
def p7 : Pdf := Pdf.mk "/input/p7" 0 "T" none none

/-- A world where the base output name and all ten variants are taken. -/
def wAll : World :=
  ⟨path_join OUT_DIR "T" ::
     (List.range' 1 10).map (fun i => path_join OUT_DIR "T" ++ "_" ++ fmt02 i),
   [], none, []⟩

/-- A world where the base name, `_01` and `_02` are taken but `_03` is
free. -/
def wSome : World :=
  ⟨[path_join OUT_DIR "T", path_join OUT_DIR "T" ++ "_01",
    path_join OUT_DIR "T" ++ "_02"], [], none, []⟩

/-- Readiness observations: zero-length for the first three polls, then a
9-byte file. -/
def obsAcc : Nat → Option Nat := fun i => if i < 3 then some 0 else some 9

/-- Readiness observations: zero-length twice, then the file vanishes. -/
def obsVan : Nat → Option Nat := fun i => if i < 2 then some 0 else none

/-! ### Record-field lemmas -/

theorem Pdf.prev_withOut (p : Pdf) (o : Option String) : (p.withOut o).prev = p.prev := rfl

theorem Pdf.mtime_withOut (p : Pdf) (o : Option String) : (p.withOut o).mtime = p.mtime := rfl

theorem Pdf.out_withOut (p : Pdf) (o : Option String) : (p.withOut o).out = o := rfl

theorem Pdf.prev_truncate_chain (p : Pdf) :
    p.truncate_chain.prev = p.prev.map Pdf.truncatePrev := rfl

theorem Pdf.out_truncate_chain (p : Pdf) : p.truncate_chain.out = p.out := rfl

theorem Pdf.prev_init (n : String) (t : Int) (pr : Option Pdf) : (Pdf.init n t pr).prev = pr := rfl

/-! ### World-operation lemmas -/

theorem World.collate_calls_log_collate (w : World) (l f b o : String) :
    (w.log (.collateCall l f b o)).collate_calls = w.collate_calls + 1 := by
  simp [World.log, World.collate_calls, List.filter_append, Event.isCollate]

theorem World.collate_calls_addFile (w : World) (f : String) :
    (w.addFile f).collate_calls = w.collate_calls := rfl

theorem World.saved_rmtree (w : World) (d : String) : (w.rmtree d).saved = w.saved := rfl

theorem World.saved_moveDir (w : World) (src dst : String) :
    (w.moveDir src dst).saved = w.saved := rfl

/-- A `get_out_name` call with no explicit directory succeeds whenever the
record's output directory is set. -/
theorem Pdf.get_out_name_some (p : Pdf) (l : String) (o : String) (c : Bool)
    (h : p.out = some o) :
    p.get_out_name l none c =
      some (path_join o (date_of p.mtime) ++ "_" ++ l ++ (if c then "_collated" else "") ++ ".pdf") := by
  simp [Pdf.get_out_name, h]

/-! ### Collate lemmas: the merge loop never touches directories, never
removes files, and always records its invocations. -/

theorem collate_go_dirs (p q : Pdf) (env : Env) :
    ∀ (ls : List String) (w : World), (Pdf.collate_go p q env ls w).1.dirs = w.dirs := by
  intro ls
  induction ls with
  | nil => intro w; rfl
  | cons l rest ih =>
    intro w
    unfold Pdf.collate_go
    split
    · split
      · rw [ih]; rfl
      · rfl
    · rfl

theorem collate_go_files (p q : Pdf) (env : Env) :
    ∀ (ls : List String) (w : World) (f : String),
      f ∈ w.files → f ∈ (Pdf.collate_go p q env ls w).1.files := by
  intro ls
  induction ls with
  | nil => intro w f hf; exact hf
  | cons l rest ih =>
    intro w f hf
    unfold Pdf.collate_go
    split
    · split
      · exact ih _ _ (List.mem_cons_of_mem _ hf)
      · exact hf
    · exact hf

theorem collate_go_saved (p q : Pdf) (env : Env) :
    ∀ (ls : List String) (w : World), (Pdf.collate_go p q env ls w).1.saved = w.saved := by
  intro ls
  induction ls with
  | nil => intro w; rfl
  | cons l rest ih =>
    intro w
    unfold Pdf.collate_go
    split
    · split
      · rw [ih]; rfl
      · rfl
    · rfl

theorem collate_go_calls_le (p q : Pdf) (env : Env) :
    ∀ (ls : List String) (w : World),
      w.collate_calls ≤ (Pdf.collate_go p q env ls w).1.collate_calls := by
  intro ls
  induction ls with
  | nil => intro w; exact Nat.le_refl _
  | cons l rest ih =>
    intro w
    unfold Pdf.collate_go
    split
    · split
      · refine Nat.le_trans ?_ (ih _)
        rw [World.collate_calls_addFile, World.collate_calls_log_collate]
        omega
      · rw [World.collate_calls_log_collate]; omega
    · exact Nat.le_refl _

/-- When both records have placed outputs, `Pdf.collate` invokes the merge
tool at least once (the trace strictly grows), whatever the tool outcome. -/
theorem collate_calls_lt (p q : Pdf) (env : Env) (w : World) (qo po : String)
    (hq : q.out = some qo) (hp : p.out = some po) :
    w.collate_calls < (p.collate q env w).1.collate_calls := by
  unfold Pdf.collate langs
  unfold Pdf.collate_go
  rw [Pdf.get_out_name_some q "eng" qo false hq, Pdf.get_out_name_some p "eng" po false hp,
      Pdf.get_out_name_some q "eng" qo true hq]
  dsimp only
  split
  · refine Nat.lt_of_lt_of_le ?_ (collate_go_calls_le _ _ _ _ _)
    rw [World.collate_calls_addFile, World.collate_calls_log_collate]
    omega
  · rw [World.collate_calls_log_collate]; omega

/-- When both records have placed outputs and some language's merge
invocation fails, `Pdf.collate` raises `NonFatalError`. -/
theorem collate_fail (p q : Pdf) (env : Env) (w : World) (qo po : String)
    (hq : q.out = some qo) (hp : p.out = some po)
    (hf : env.collate_ok "eng" = false ∨ env.collate_ok "deu" = false) :
    (p.collate q env w).2 = .error .nonFatal := by
  unfold Pdf.collate langs
  unfold Pdf.collate_go
  rw [Pdf.get_out_name_some q "eng" qo false hq, Pdf.get_out_name_some p "eng" po false hp,
      Pdf.get_out_name_some q "eng" qo true hq]
  dsimp only
  by_cases he : env.collate_ok "eng" = true
  · rw [if_pos he]
    unfold Pdf.collate_go
    rw [Pdf.get_out_name_some q "deu" qo false hq, Pdf.get_out_name_some p "deu" po false hp,
        Pdf.get_out_name_some q "deu" qo true hq]
    dsimp only
    have hd : env.collate_ok "deu" = false := by
      rcases hf with hf | hf
      · rw [he] at hf; cases hf
      · exact hf
    rw [hd]
    simp
  · rw [if_neg he]

theorem collate_dirs (p q : Pdf) (env : Env) (w : World) :
    (p.collate q env w).1.dirs = w.dirs := collate_go_dirs p q env langs w

theorem collate_files (p q : Pdf) (env : Env) (w : World) (f : String) (hf : f ∈ w.files) :
    f ∈ (p.collate q env w).1.files := collate_go_files p q env langs w f hf

theorem collate_saved (p q : Pdf) (env : Env) (w : World) :
    (p.collate q env w).1.saved = w.saved := collate_go_saved p q env langs w

/-! ### OCR and placement lemmas -/

theorem ocr_go_saved (p : Pdf) (env : Env) (od : String) :
    ∀ (ls : List String) (w : World), (Pdf.ocr_go p env od ls w).1.saved = w.saved := by
  intro ls
  induction ls with
  | nil => intro w; rfl
  | cons l rest ih =>
    intro w
    unfold Pdf.ocr_go
    dsimp only
    split
    · rw [ih]; rfl
    · rfl

/-- A successful `try` block hands back the same record with the freshly
allocated output directory set, and that directory exists afterwards. -/
theorem place_shape (p : Pdf) (env : Env) (temp : String) (w : World) (p1 : Pdf)
    (h : (p.place env temp w).2 = .ok p1) :
    ∃ d, p1 = p.withOut (some d) ∧ d ∈ (p.place env temp w).1.dirs := by
  unfold Pdf.place at h ⊢
  dsimp only at h ⊢
  obtain ⟨⟨w1, e1⟩, hocr⟩ : ∃ r, p.ocr env temp (w.addDir temp) = r := ⟨_, rfl⟩
  rw [hocr] at h ⊢
  cases e1 with
  | error e => simp at h
  | ok u =>
    cases u
    dsimp only at h ⊢
    obtain ⟨r2, hgn⟩ : ∃ r, p.get_new_out_dir_name w1 = r := ⟨_, rfl⟩
    rw [hgn] at h ⊢
    cases r2 with
    | error e => simp at h
    | ok outd =>
      dsimp only at h ⊢
      injection h with h1
      refine ⟨outd, h1.symm, ?_⟩
      simp [World.moveDir]

/-- `Pdf.place` never touches the pickled state. -/
theorem place_saved (p : Pdf) (env : Env) (temp : String) (w : World) :
    (p.place env temp w).1.saved = w.saved := by
  unfold Pdf.place
  dsimp only
  obtain ⟨⟨w1, e1⟩, hocr⟩ : ∃ r, p.ocr env temp (w.addDir temp) = r := ⟨_, rfl⟩
  rw [hocr]
  have hw1 : w1.saved = w.saved := by
    have h2 := ocr_go_saved p env temp langs (w.addDir temp)
    rw [show p.ocr_go env temp langs (w.addDir temp) = (w1, e1) from hocr] at h2
    exact h2
  cases e1 with
  | error e => simpa [World.saved_rmtree] using hw1
  | ok u =>
    cases u
    dsimp only
    obtain ⟨r2, hgn⟩ : ∃ r, p.get_new_out_dir_name w1 = r := ⟨_, rfl⟩
    rw [hgn]
    cases r2 with
    | error e => simpa [World.saved_rmtree] using hw1
    | ok outd => simpa [World.saved_moveDir] using hw1

/-- A successful `Pdf.process` hands back the record with its output set,
and the output directory exists afterwards. -/
theorem process_shape (p : Pdf) (env : Env) (temp : String) (w : World) (p1 : Pdf)
    (h : (p.process env temp w).2 = .ok p1) :
    ∃ d, p1 = p.withOut (some d) ∧ d ∈ (p.process env temp w).1.dirs := by
  unfold Pdf.process at h ⊢
  obtain ⟨⟨w1, ep⟩, hpl⟩ : ∃ r, p.place env temp w = r := ⟨_, rfl⟩
  rw [hpl] at h ⊢
  cases ep with
  | error e => simp at h
  | ok pp =>
    dsimp only at h ⊢
    obtain ⟨d, hpp, hd⟩ := place_shape p env temp w pp (by rw [hpl])
    rw [hpl] at hd
    obtain ⟨op, hprev⟩ : ∃ r, pp.prev = r := ⟨_, rfl⟩
    rw [hprev] at h ⊢
    cases op with
    | none =>
      dsimp only at h ⊢
      injection h with h1
      exact ⟨d, h1 ▸ hpp, hd⟩
    | some q =>
      dsimp only at h ⊢
      by_cases hcond : (pp.mtime - q.mtime) % 86400 > 60
      · rw [if_pos hcond] at h ⊢
        injection h with h1
        exact ⟨d, h1 ▸ hpp, hd⟩
      · rw [if_neg hcond] at h ⊢
        obtain ⟨⟨w2, ec⟩, hc⟩ : ∃ r, pp.collate q env w1 = r := ⟨_, rfl⟩
        rw [hc] at h ⊢
        cases ec with
        | error e => simp at h
        | ok u =>
          cases u
          dsimp only at h ⊢
          injection h with h1
          have hd2 : (pp.collate q env w1).1.dirs = w1.dirs := collate_dirs pp q env w1
          rw [hc] at hd2
          exact ⟨d, h1 ▸ hpp, hd2 ▸ hd⟩

/-- `Pdf.process` never touches the pickled state. -/
theorem process_saved (p : Pdf) (env : Env) (temp : String) (w : World) :
    (p.process env temp w).1.saved = w.saved := by
  unfold Pdf.process
  obtain ⟨⟨w1, ep⟩, hpl⟩ : ∃ r, p.place env temp w = r := ⟨_, rfl⟩
  rw [hpl]
  have hw1 : w1.saved = w.saved := by
    have h2 := place_saved p env temp w
    rw [hpl] at h2
    exact h2
  cases ep with
  | error e => exact hw1
  | ok pp =>
    dsimp only
    obtain ⟨op, hprev⟩ : ∃ r, pp.prev = r := ⟨_, rfl⟩
    rw [hprev]
    cases op with
    | none => exact hw1
    | some q =>
      dsimp only
      by_cases hcond : (pp.mtime - q.mtime) % 86400 > 60
      · rw [if_pos hcond]
        exact hw1
      · rw [if_neg hcond]
        obtain ⟨⟨w2, ec⟩, hc⟩ : ∃ r, pp.collate q env w1 = r := ⟨_, rfl⟩
        rw [hc]
        have hw2 : w2.saved = w1.saved := by
          have h2 := collate_saved pp q env w1
          rw [hc] at h2
          exact h2
        cases ec with
        | error e => exact hw2.trans hw1
        | ok u => cases u; exact hw2.trans hw1

/-- A successful `process_one_file` returns the record with the predecessor
chain truncated, its output directory on disk, and the record pickled. -/
theorem pof_ok_shape (fname : String) (jd : JobData) (prev : Option Pdf) (w : World) (pdf2 : Pdf)
    (h : (process_one_file fname jd prev w).2 = .ok pdf2) :
    pdf2.prev = prev.map Pdf.truncatePrev
    ∧ (∃ d, pdf2.out = some d ∧ d ∈ (process_one_file fname jd prev w).1.dirs)
    ∧ (process_one_file fname jd prev w).1.saved = some pdf2 := by
  unfold process_one_file at h ⊢
  dsimp only at h ⊢
  obtain ⟨r0, hwr⟩ : ∃ r, (wait_ready jd.obs).1 = r := ⟨_, rfl⟩
  rw [hwr] at h ⊢
  cases r0 with
  | error e => simp at h
  | ok u =>
    cases u
    dsimp only at h ⊢
    obtain ⟨⟨w1, ep⟩, hpr⟩ :
        ∃ r, (Pdf.init (path_join MON_DIR fname) jd.mtime prev).process jd.env jd.temp w = r :=
      ⟨_, rfl⟩
    rw [hpr] at h ⊢
    cases ep with
    | error e => simp at h
    | ok pdf1 =>
      dsimp only at h ⊢
      injection h with h1
      obtain ⟨d, hshape, hd⟩ := process_shape _ _ _ _ pdf1 (by rw [hpr])
      rw [hpr] at hd
      subst h1
      refine ⟨?_, ⟨d, ?_, ?_⟩, rfl⟩
      · rw [Pdf.prev_truncate_chain, hshape, Pdf.prev_withOut, Pdf.prev_init]
      · rw [Pdf.out_truncate_chain, hshape, Pdf.out_withOut]
      · exact hd

/-- A failed `process_one_file` leaves the pickled state untouched. -/
theorem pof_error_saved (fname : String) (jd : JobData) (prev : Option Pdf) (w : World) (e : Err)
    (h : (process_one_file fname jd prev w).2 = .error e) :
    (process_one_file fname jd prev w).1.saved = w.saved := by
  unfold process_one_file at h ⊢
  dsimp only at h ⊢
  obtain ⟨r0, hwr⟩ : ∃ r, (wait_ready jd.obs).1 = r := ⟨_, rfl⟩
  rw [hwr] at h ⊢
  cases r0 with
  | error e1 => rfl
  | ok u =>
    cases u
    dsimp only at h ⊢
    obtain ⟨⟨w1, ep⟩, hpr⟩ :
        ∃ r, (Pdf.init (path_join MON_DIR fname) jd.mtime prev).process jd.env jd.temp w = r :=
      ⟨_, rfl⟩
    rw [hpr] at h ⊢
    cases ep with
    | error e2 =>
      have h2 := process_saved (Pdf.init (path_join MON_DIR fname) jd.mtime prev) jd.env jd.temp w
      rw [hpr] at h2
      exact h2
    | ok pdf1 => simp at h

/-! ### Sorting lemmas for the directory scan -/

theorem insort_perm (x : Int × String) : ∀ l, (insort x l).Perm (x :: l) := by
  intro l
  induction l with
  | nil => exact List.Perm.refl _
  | cons y ys ih =>
    unfold insort
    by_cases hxy : x.1 ≤ y.1
    · rw [if_pos hxy]
    · rw [if_neg hxy]
      exact (List.Perm.cons y ih).trans (List.Perm.swap x y ys)

theorem sort_by_mtime_perm : ∀ l, (sort_by_mtime l).Perm l := by
  intro l
  induction l with
  | nil => exact List.Perm.refl _
  | cons x xs ih =>
    unfold sort_by_mtime
    exact (insort_perm x _).trans (List.Perm.cons x ih)

theorem insort_sorted (x : Int × String) :
    ∀ l, List.Sorted keyLE l → List.Sorted keyLE (insort x l) := by
  intro l
  induction l with
  | nil =>
    intro _
    unfold insort
    exact List.sorted_singleton x
  | cons y ys ih =>
    intro hs
    rw [List.sorted_cons] at hs
    obtain ⟨hy, hys⟩ := hs
    unfold insort
    by_cases hxy : x.1 ≤ y.1
    · rw [if_pos hxy, List.sorted_cons]
      refine ⟨?_, List.sorted_cons.mpr ⟨hy, hys⟩⟩
      intro b hb
      rcases List.mem_cons.mp hb with rfl | hb2
      · exact hxy
      · exact le_trans hxy (hy b hb2)
    · rw [if_neg hxy, List.sorted_cons]
      refine ⟨?_, ih hys⟩
      intro b hb
      have hb2 := (insort_perm x ys).mem_iff.mp hb
      rcases List.mem_cons.mp hb2 with rfl | hb3
      · exact le_of_lt (lt_of_not_le hxy)
      · exact hy b hb3

theorem sort_by_mtime_sorted : ∀ l, List.Sorted keyLE (sort_by_mtime l) := by
  intro l
  induction l with
  | nil => exact List.sorted_nil
  | cons x xs ih => exact insort_sorted x _ ih

theorem insort_filter_eq (x : Int × String) (t : Int) :
    ∀ l, (insort x l).filter (fun f => decide (f.1 = t)) =
      ((x :: l).filter (fun f => decide (f.1 = t))) := by
  intro l
  induction l with
  | nil => rfl
  | cons y ys ih =>
    unfold insort
    by_cases hxy : x.1 ≤ y.1
    · rw [if_pos hxy]
    · rw [if_neg hxy]
      have hlt : y.1 < x.1 := lt_of_not_le hxy
      simp only [List.filter_cons] at ih ⊢
      by_cases hyt : y.1 = t
      · have hx : ¬ x.1 = t := by omega
        simp [hyt, hx] at ih ⊢
        rw [ih]
      · simp [hyt] at ih ⊢
        rw [ih]

/-- Stability of the mtime sort: entries with any given modification time
keep their directory-listing order. -/
theorem sort_by_mtime_stable (t : Int) :
    ∀ l, (sort_by_mtime l).filter (fun f => decide (f.1 = t)) =
      l.filter (fun f => decide (f.1 = t)) := by
  intro l
  induction l with
  | nil => rfl
  | cons x xs ih =>
    unfold sort_by_mtime
    rw [insort_filter_eq]
    simp only [List.filter_cons]
    rw [ih]

theorem sorted_last_max :
    ∀ (l : List (Int × String)), List.Sorted keyLE l →
      ∀ last, l.getLast? = some last → ∀ x ∈ l, x.1 ≤ last.1 := by
  intro l
  induction l with
  | nil =>
    intro _ last h
    simp at h
  | cons a l2 ih =>
    intro hs last hl x hx
    cases l2 with
    | nil =>
      simp at hl hx
      subst hl
      subst hx
      exact le_refl _
    | cons b l3 =>
      rw [List.getLast?_cons_cons] at hl
      rw [List.sorted_cons] at hs
      obtain ⟨ha, hs2⟩ := hs
      rcases List.mem_cons.mp hx with rfl | hx2
      · exact ha last (List.mem_of_mem_getLast? (Option.mem_def.mpr hl))
      · exact ih hs2 last hl x hx2

theorem sorted_dropWhile_filter (t : Int) :
    ∀ (l : List (Int × String)), List.Sorted keyLE l →
      l.dropWhile (fun f => decide (f.1 ≤ t)) = l.filter (fun f => decide (t < f.1)) := by
  intro l
  induction l with
  | nil => intro _; rfl
  | cons x xs ih =>
    intro hs
    rw [List.sorted_cons] at hs
    obtain ⟨hx, hs2⟩ := hs
    by_cases hxt : x.1 ≤ t
    · rw [List.dropWhile_cons_of_pos (by simpa using hxt),
          List.filter_cons_of_neg (by simpa using not_lt.mpr hxt)]
      exact ih hs2
    · rw [List.dropWhile_cons_of_neg (by simpa using hxt),
          List.filter_cons_of_pos (by simpa using lt_of_not_le hxt)]
      have hlt : t < x.1 := lt_of_not_le hxt
      congr 1
      symm
      rw [List.filter_eq_self]
      intro a ha
      have h2 : x.1 ≤ a.1 := hx a ha
      simp only [decide_eq_true_eq]
      omega

theorem drop_length_takeWhile (p : (Int × String) → Bool) (l : List (Int × String)) :
    l.drop (l.takeWhile p).length = l.dropWhile p := by
  have h := List.drop_left (l.takeWhile p) (l.dropWhile p)
  rw [List.takeWhile_append_dropWhile] at h
  exact h

theorem bisect_right_keys (l : List (Int × String)) (t : Int) :
    bisect_right (l.map Prod.fst) t = (l.takeWhile (fun f => decide (f.1 ≤ t))).length := by
  unfold bisect_right
  rw [List.takeWhile_map, List.length_map]
  rfl

theorem head?_drop_eq (l : List (Int × String)) (n : Nat) : (l.drop n).head? = l[n]? := by
  rw [List.head?_eq_getElem?, List.getElem?_drop]
  simp

/-! ### Readiness-loop lemmas -/

/-- Running the readiness loop across `d` zero-length polls: the loop
sleeps `retry_delay` seconds per poll and continues from attempt
`start + d` with the remaining budget. -/
theorem wait_shift (obs : Nat → Option Nat) :
    ∀ (d start fuel : Nat), (∀ j, j < d → obs (start + j) = some 0) → d ≤ fuel →
      wait_for_file obs start fuel =
        ((wait_for_file obs (start + d) (fuel - d)).1,
          retry_delay * d + (wait_for_file obs (start + d) (fuel - d)).2) := by
  intro d
  induction d with
  | zero =>
    intro start fuel _ _
    simp
  | succ d ih =>
    intro start fuel h hle
    cases fuel with
    | zero => omega
    | succ fuel =>
      have h0 : obs start = some 0 := by
        have h1 := h 0 (Nat.succ_pos d)
        simpa using h1
      have hrec := ih (start + 1) fuel
        (fun j hj => by
          have h2 := h (j + 1) (by omega)
          rw [show start + (j + 1) = start + 1 + j by omega] at h2
          exact h2)
        (by omega)
      rw [wait_for_file, h0]
      dsimp only
      rw [if_pos rfl, hrec]
      rw [show start + 1 + d = start + (d + 1) by omega,
          show fuel - d = fuel + 1 - (d + 1) by omega]
      dsimp only
      rw [show retry_delay + (retry_delay * d +
            (wait_for_file obs (start + (d + 1)) (fuel + 1 - (d + 1))).2) =
          retry_delay * (d + 1) +
            (wait_for_file obs (start + (d + 1)) (fuel + 1 - (d + 1))).2 by
        unfold retry_delay; omega]

/-! ## Claim theorems -/

/-- C1, counterexample: the claim says that for two candidates exactly 60
seconds apart no merge is attempted, and that whenever the difference
exceeds 60 seconds the record stands alone.  The code tests
`(mtime - prev.mtime).seconds > 60`, so at exactly 60 seconds apart the
merge IS attempted (here the merge tool fails, the record's processing
fails, and the trace shows one merge invocation), and at one day plus 30
seconds apart — a difference far beyond 60 seconds — the merge is ALSO
attempted, because `.seconds` is the day-normalised seconds component. -/
theorem pairing_threshold_cex :
    (p60.process envCF "/t" emptyWorld).2 = .error .nonFatal
    ∧ (p60.process envCF "/t" emptyWorld).1.collate_calls = 1
    ∧ p60.mtime - q0.mtime = 60
    ∧ (p86430.process envCF "/t2" emptyWorld).2 = .error .nonFatal
    ∧ p86430.mtime - q0.mtime = 86430 :=
  ⟨rfl, rfl, rfl, rfl, rfl⟩

/-- C1, amended: for every record with a previous record whose output is
placed, once the record's own output has been placed, a merge is attempted
(the merge-tool trace strictly grows) if and only if the day-normalised
seconds component of the arrival-time difference,
`(mtime - prev.mtime) % 86400`, is at most 60.  In particular at exactly 60
seconds apart a merge IS attempted, at 59 it is attempted, and at 61
(up to a day) the record stands alone. -/
theorem pairing_threshold_amended (p q : Pdf) (env : Env) (temp : String) (w : World)
    (hprev : p.prev = some q) (hq : ∃ qo, q.out = some qo)
    (hplace : (p.place env temp w).2.isOk = true) :
    ((p.place env temp w).1.collate_calls < (p.process env temp w).1.collate_calls)
      ↔ (p.mtime - q.mtime) % 86400 ≤ 60 := by
  obtain ⟨qo, hqo⟩ := hq
  obtain ⟨⟨w1, ep⟩, hpl⟩ : ∃ r, p.place env temp w = r := ⟨_, rfl⟩
  cases ep with
  | error e =>
    rw [hpl] at hplace
    simp [Except.isOk, Except.toBool] at hplace
  | ok pp =>
    obtain ⟨d, hpp, _⟩ := place_shape p env temp w pp (by rw [hpl])
    have hpp_prev : pp.prev = some q := by rw [hpp, Pdf.prev_withOut, hprev]
    have hpp_mtime : pp.mtime = p.mtime := by rw [hpp, Pdf.mtime_withOut]
    have hpp_out : pp.out = some d := by rw [hpp, Pdf.out_withOut]
    rw [hpl]
    unfold Pdf.process
    rw [hpl]
    dsimp only
    rw [hpp_prev]
    dsimp only
    by_cases hcond : (pp.mtime - q.mtime) % 86400 > 60
    · rw [if_pos hcond]
      dsimp only
      rw [hpp_mtime] at hcond
      constructor
      · intro hlt
        exact absurd hlt (lt_irrefl _)
      · intro hle
        exact absurd hle (by omega)
    · rw [if_neg hcond]
      obtain ⟨⟨w2, ec⟩, hc⟩ : ∃ r, pp.collate q env w1 = r := ⟨_, rfl⟩
      rw [hc]
      have hcalls : w1.collate_calls < w2.collate_calls := by
        have h2 := collate_calls_lt pp q env w1 qo d hqo hpp_out
        rw [hc] at h2
        exact h2
      rw [hpp_mtime] at hcond
      cases ec with
      | error e =>
        dsimp only
        exact ⟨fun _ => by omega, fun _ => hcalls⟩
      | ok u =>
        cases u
        dsimp only
        exact ⟨fun _ => by omega, fun _ => hcalls⟩

/-- C1, witness for the amended theorem: for the concrete pair exactly 60
seconds apart (with OCR succeeding), the merge-tool trace strictly grows —
a merge is attempted. -/
theorem pairing_threshold_amended_witness :
    (p60.place envCF "/t" emptyWorld).1.collate_calls
      < (p60.process envCF "/t" emptyWorld).1.collate_calls :=
  (pairing_threshold_amended p60 q0 envCF "/t" emptyWorld rfl ⟨"/out/q", rfl⟩ rfl).mpr
    (by decide)

/-- C2, counterexample: the claim says that once a pairing attempt has been
made — success or failure — the previous record's own previous reference is
set to none immediately after the attempt.  Concretely: processing
candidate `b` with predecessor `A0` attempts one merge invocation, which
fails; the loop catches the error and continues threading the ORIGINAL
`A0`, whose own previous is still `Z0` — no truncation happened, and no
state was saved. -/
theorem one_shot_pairing_cex :
    (offline_loop (fun _ => jdB) [((10 : Int), "b")] (some A0) emptyWorld).2 = .ok (some A0)
    ∧ 0 < (offline_loop (fun _ => jdB) [((10 : Int), "b")] (some A0) emptyWorld).1.collate_calls
    ∧ A0.prev = some Z0
    ∧ (offline_loop (fun _ => jdB) [((10 : Int), "b")] (some A0) emptyWorld).1.saved = none :=
  ⟨rfl, by decide, rfl, rfl⟩

/-- C2, amended: truncation is tied to success, not to the attempt.  When
`process_one_file` succeeds (merge succeeded, or no pairing was needed),
the returned and saved record's previous has its own previous reference cut
— the chain never exceeds two records, so the attempted pair can never be
revisited.  When processing fails (in particular when the merge fails), no
truncation occurs: the loop catches the `NonFatalError` and continues
threading the original, untouched predecessor. -/
theorem one_shot_truncation (fname : String) (jd : JobData) (prev : Option Pdf) (w : World) :
    (∀ pdf2, (process_one_file fname jd prev w).2 = .ok pdf2 →
        pdf2.prev = prev.map Pdf.truncatePrev ∧ pdf2.prev.bind Pdf.prev = none)
    ∧ (∀ (jobs : String → JobData) (f : Int × String) (rest : List (Int × String)),
        jobs f.2 = jd →
        (process_one_file f.2 jd prev w).2 = .error .nonFatal →
        offline_loop jobs (f :: rest) prev w =
          offline_loop jobs rest prev (process_one_file f.2 jd prev w).1) := by
  constructor
  · intro pdf2 h
    obtain ⟨hpr, _, _⟩ := pof_ok_shape fname jd prev w pdf2 h
    refine ⟨hpr, ?_⟩
    rw [hpr]
    cases prev with
    | none => rfl
    | some z => cases z; rfl
  · intro jobs f rest hjobs herr
    obtain ⟨⟨w1, er⟩, hp⟩ : ∃ r, process_one_file f.2 jd prev w = r := ⟨_, rfl⟩
    rw [hp] at herr
    cases er with
    | ok pdf => simp at herr
    | error e =>
      injection herr with he
      subst he
      rw [hp]
      simp only [offline_loop]
      rw [hjobs, hp]

/-- C2, witness for the amended theorem: a concrete successful run with
predecessor `A0` returns a record whose previous is the truncated `A0` and
whose chain ends there. -/
theorem one_shot_truncation_witness :
    (Pdf.mk "/input/f" 100 "ts100" (some "/out/ts100")
        (some (Pdf.mk "/input/a" 0 "ts0" (some "/out/a") none))).prev
      = (some A0).map Pdf.truncatePrev
    ∧ (Pdf.mk "/input/f" 100 "ts100" (some "/out/ts100")
        (some (Pdf.mk "/input/a" 0 "ts0" (some "/out/a") none))).prev.bind Pdf.prev = none :=
  (one_shot_truncation "f" jd1 (some A0) emptyWorld).1
    (Pdf.mk "/input/f" 100 "ts100" (some "/out/ts100")
      (some (Pdf.mk "/input/a" 0 "ts0" (some "/out/a") none))) rfl

/-- C3, counterexample: the claim says a candidate that remains zero-length
through every attempt is abandoned with a non-fatal error once the retry
budget is exhausted.  In the code the `for i in range(10)` loop simply ends
after ten zero-length polls (fifty seconds of sleeping) and processing
proceeds with the zero-length file: here the whole pipeline then SUCCEEDS
(the tool oracles accept the empty file), so the candidate was never
abandoned by the readiness check. -/
theorem readiness_exhaustion_cex :
    (wait_ready (fun _ => some 0)).1 = .ok ()
    ∧ (wait_ready (fun _ => some 0)).2 = 50
    ∧ (process_one_file "f" jd0 none emptyWorld).2.isOk = true :=
  ⟨rfl, rfl, rfl⟩

/-- C3, amended: readiness is polled up to 10 attempts with a 5-second
delay after each zero-length poll; a zero-length candidate that becomes
non-empty within the budget is accepted; a candidate that disappears at any
polled attempt is dropped with a `NonFatalError` that propagates out of
`process_one_file` (abandoning only that candidate); but a candidate that
remains zero-length through every attempt is NOT abandoned — after the
budget is exhausted the loop falls through and the file is processed
anyway. -/
theorem readiness_budget (obs : Nat → Option Nat) :
    (retry_attempts = 10 ∧ retry_delay = 5)
    ∧ (∀ i, i < 10 → (∀ j, j < i → obs j = some 0) → obs i = none →
        wait_ready obs = (.error .nonFatal, 5 * i))
    ∧ (∀ i n, i < 10 → (∀ j, j < i → obs j = some 0) → obs i = some n → n ≠ 0 →
        wait_ready obs = (.ok (), 5 * i))
    ∧ ((∀ j, j < 10 → obs j = some 0) → wait_ready obs = (.ok (), 50))
    ∧ (∀ (fname : String) (jd : JobData) (prev : Option Pdf) (w : World),
        jd.obs = obs → (wait_ready obs).1 = .error .nonFatal →
        process_one_file fname jd prev w = (w, .error .nonFatal)) := by
  refine ⟨⟨rfl, rfl⟩, ?_, ?_, ?_, ?_⟩
  · intro i hi hzero hnone
    unfold wait_ready retry_attempts
    rw [wait_shift obs i 0 10 (fun j hj => by simpa using hzero j hj) (by omega)]
    rw [show (10 : Nat) - i = (10 - i - 1) + 1 by omega]
    rw [wait_for_file]
    rw [show (0 : Nat) + i = i by omega, hnone]
    dsimp only
    rw [show retry_delay * i + 0 = 5 * i by unfold retry_delay; omega]
  · intro i n hi hzero hsome hn
    unfold wait_ready retry_attempts
    rw [wait_shift obs i 0 10 (fun j hj => by simpa using hzero j hj) (by omega)]
    rw [show (10 : Nat) - i = (10 - i - 1) + 1 by omega]
    rw [wait_for_file]
    rw [show (0 : Nat) + i = i by omega, hsome]
    dsimp only
    rw [if_neg hn]
    rw [show retry_delay * i + 0 = 5 * i by unfold retry_delay; omega]
  · intro hzero
    unfold wait_ready retry_attempts
    rw [wait_shift obs 10 0 10 (fun j hj => by simpa using hzero j hj) (by omega)]
    rw [show (10 : Nat) - 10 = 0 by omega]
    rw [wait_for_file]
    rw [show retry_delay * 10 + 0 = 50 by unfold retry_delay; omega]
  · intro fname jd prev w hobs herr
    unfold process_one_file
    dsimp only
    rw [hobs, herr]

/-- C3, witness for the amended theorem: a candidate that becomes non-empty
at the fourth poll is accepted after 15 seconds of sleeping; one that
vanishes at the third poll is dropped with a non-fatal error after 10
seconds, and `process_one_file` propagates that error leaving the world
untouched; one that stays zero-length is still waited on for 50 seconds
and then accepted. -/
theorem readiness_budget_witness :
    wait_ready obsAcc = (.ok (), 5 * 3)
    ∧ wait_ready obsVan = (.error .nonFatal, 5 * 2)
    ∧ wait_ready (fun _ => some 0) = (.ok (), 50)
    ∧ process_one_file "g" ⟨obsVan, 0, "/tv", env_all_ok⟩ none emptyWorld
        = (emptyWorld, .error .nonFatal) :=
  ⟨(readiness_budget obsAcc).2.2.1 3 9 (by decide) (by decide) rfl (by decide),
   (readiness_budget obsVan).2.1 2 (by decide) (by decide) rfl,
   (readiness_budget (fun _ => some 0)).2.2.2.1 (by decide),
   (readiness_budget obsVan).2.2.2.2 "g" ⟨obsVan, 0, "/tv", env_all_ok⟩ none emptyWorld rfl rfl⟩

/-- C5 (code bug): on the very first CREATE notification the live loop
reads the local variable `prev_pdf` on the right-hand side of its only
assignment, before it was ever bound, raising `UnboundLocalError` — which
the `except (NonFatalError, FileNotFoundError)` handler does not catch.
The loop therefore aborts before any readiness check, recognition, pairing
or save, for every event name, job oracle and world. -/
theorem inotify_unbound_abort (jobs : String → JobData) (ename : String)
    (rest : List String) (w : World) :
    inotify_loop_run jobs (ename :: rest) none w = (w, .error .unboundLocal) := rfl

/-- C4: restart reconciliation.  With a persisted prior record (arrival
time `t`, source file basename `lname`) and a non-empty directory:
if no entry is newer than `t` the scanner selects nothing (immediate
return); otherwise it selects exactly the entries with modification time
strictly greater than `t`, in ascending time order, except that the first
such entry is additionally skipped when it is the prior record's own source
file; and `process_offline_files` then runs the processing loop over
exactly that selection, threading each successfully processed record as the
predecessor of the next (by definition of `offline_loop`). -/
theorem restart_reconciliation (t : Int) (lname : String) (listing : List (Int × String))
    (hne : listing ≠ []) :
    ((∀ f ∈ listing, f.1 ≤ t) →
        process_offline_select (some (t, lname)) listing = .ok [])
    ∧ ((∃ f ∈ listing, t < f.1) →
        process_offline_select (some (t, lname)) listing =
          .ok (skip_own lname ((sort_by_mtime listing).filter (fun f => decide (t < f.1))))
        ∧ List.Sorted keyLE
            (skip_own lname ((sort_by_mtime listing).filter (fun f => decide (t < f.1)))))
    ∧ (∀ (latest : Pdf) (jobs : String → JobData) (w : World) (sel : List (Int × String)),
        latest.mtime = t → basename latest.name = lname →
        process_offline_select (some (t, lname)) listing = .ok sel →
        process_offline_files (some latest) listing jobs w
          = offline_loop jobs sel (some latest) w) := by
  have hperm := sort_by_mtime_perm listing
  have hsorted := sort_by_mtime_sorted listing
  refine ⟨?_, ?_, ?_⟩
  · intro hall
    obtain ⟨x0, hx0⟩ := List.exists_mem_of_ne_nil listing hne
    have hx0s : x0 ∈ sort_by_mtime listing := hperm.mem_iff.mpr hx0
    obtain ⟨last, hlast⟩ : ∃ a, (sort_by_mtime listing).getLast? = some a := by
      cases hcase : (sort_by_mtime listing).getLast? with
      | none => exact absurd (List.getLast?_eq_none_iff.mp hcase) (List.ne_nil_of_mem hx0s)
      | some a => exact ⟨a, rfl⟩
    have hle : last.1 ≤ t :=
      hall last (hperm.mem_iff.mp (List.mem_of_mem_getLast? (Option.mem_def.mpr hlast)))
    unfold process_offline_select
    dsimp only
    rw [hlast]
    dsimp only
    rw [if_pos hle]
  · intro hB
    obtain ⟨f0, hf0l, hf0t⟩ := hB
    have hf0s : f0 ∈ sort_by_mtime listing := hperm.mem_iff.mpr hf0l
    obtain ⟨last, hlast⟩ : ∃ a, (sort_by_mtime listing).getLast? = some a := by
      cases hcase : (sort_by_mtime listing).getLast? with
      | none => exact absurd (List.getLast?_eq_none_iff.mp hcase) (List.ne_nil_of_mem hf0s)
      | some a => exact ⟨a, rfl⟩
    have hmax := sorted_last_max _ hsorted last hlast
    have hlt : t < last.1 := lt_of_lt_of_le hf0t (hmax f0 hf0s)
    have hnotge : ¬ t ≥ last.1 := not_le.mpr hlt
    obtain ⟨i1, hi1⟩ : ∃ i,
        (if ((sort_by_mtime listing).map Prod.fst).length ≥ 2 then
            bisect_right ((sort_by_mtime listing).map Prod.fst) t
          else 0) = i := ⟨_, rfl⟩
    have hdrop : (sort_by_mtime listing).drop i1
        = (sort_by_mtime listing).filter (fun f => decide (t < f.1)) := by
      rw [← hi1]
      by_cases hlen : ((sort_by_mtime listing).map Prod.fst).length ≥ 2
      · rw [if_pos hlen, bisect_right_keys, drop_length_takeWhile]
        exact sorted_dropWhile_filter t _ hsorted
      · rw [if_neg hlen]
        rw [List.length_map] at hlen
        have hpos : 0 < (sort_by_mtime listing).length :=
          List.length_pos.mpr (List.ne_nil_of_mem hf0s)
        have hone : (sort_by_mtime listing).length = 1 := by omega
        obtain ⟨a, ha⟩ := List.length_eq_one.mp hone
        have hal : a = last := by
          rw [ha] at hlast
          simpa using hlast
        subst hal
        rw [ha]
        simp [List.filter_cons, hlt]
    obtain ⟨c, cs, hsuffix⟩ : ∃ c cs,
        (sort_by_mtime listing).filter (fun f => decide (t < f.1)) = c :: cs := by
      cases hcase : (sort_by_mtime listing).filter (fun f => decide (t < f.1)) with
      | nil =>
        exfalso
        have hmem : f0 ∈ (sort_by_mtime listing).filter (fun f => decide (t < f.1)) :=
          List.mem_filter.mpr ⟨hf0s, by simpa using hf0t⟩
        rw [hcase] at hmem
        simp at hmem
      | cons c cs => exact ⟨c, cs, rfl⟩
    have hgets : (sort_by_mtime listing)[i1]? = some c := by
      rw [← head?_drop_eq, hdrop, hsuffix]
      rfl
    have hsel : process_offline_select (some (t, lname)) listing
        = .ok (skip_own lname (c :: cs)) := by
      unfold process_offline_select
      dsimp only
      rw [hlast]
      dsimp only
      rw [if_neg hnotge]
      rw [hi1, hgets]
      dsimp only
      by_cases hname : c.2 = lname
      · rw [if_pos hname]
        have hdrop1 : (sort_by_mtime listing).drop (i1 + 1) = cs := by
          rw [← List.tail_drop, hdrop, hsuffix]
          rfl
        rw [hdrop1]
        simp only [skip_own]
        rw [if_pos hname]
      · rw [if_neg hname]
        rw [hdrop, hsuffix]
        simp only [skip_own]
        rw [if_neg hname]
    have hsorted2 : List.Sorted keyLE
        (skip_own lname ((sort_by_mtime listing).filter (fun f => decide (t < f.1)))) := by
      have hsf : List.Sorted keyLE
          ((sort_by_mtime listing).filter (fun f => decide (t < f.1))) := hsorted.filter _
      rw [hsuffix] at hsf ⊢
      simp only [skip_own]
      by_cases hname : c.2 = lname
      · rw [if_pos hname]
        exact (List.sorted_cons.mp hsf).2
      · rw [if_neg hname]
        exact hsf
    constructor
    · rw [hsuffix]
      exact hsel
    · exact hsorted2
  · intro latest jobs w sel h1 h2 h3
    unfold process_offline_files
    dsimp only [Option.map]
    rw [h1, h2, h3]

/-- C4, witness: with a persisted record for file `a` at time 0 and
directory contents `a` (time 0) and `b` (time 10), only `b` is selected
for processing — `a` is not reprocessed. -/
theorem restart_reconciliation_witness :
    process_offline_select (some ((0 : Int), "a")) [((0 : Int), "a"), ((10 : Int), "b")]
      = .ok [((10 : Int), "b")] :=
  ((restart_reconciliation 0 "a" [((0 : Int), "a"), ((10 : Int), "b")] (by decide)).2.1
    ⟨((10 : Int), "b"), by decide, by decide⟩).1

/-- C6, counterexample: the claim says ties in modification time are broken
by file name.  The code sorts by `key=lambda f: f[0]` — the time alone — so
a directory listed as `b`, `a` with equal times is processed in listing
order `b`, `a`, not in name order `a`, `b` (the name-tiebreak order,
modelled from the spec as `spec_time_name_sort`, differs). -/
theorem offline_tie_order_cex :
    process_offline_select none [((0 : Int), "b"), ((0 : Int), "a")]
      = .ok [((0 : Int), "b"), ((0 : Int), "a")]
    ∧ spec_time_name_sort [((0 : Int), "b"), ((0 : Int), "a")]
      = [((0 : Int), "a"), ((0 : Int), "b")]
    ∧ sort_by_mtime [((0 : Int), "b"), ((0 : Int), "a")]
      ≠ spec_time_name_sort [((0 : Int), "b"), ((0 : Int), "a")] :=
  ⟨rfl, rfl, by decide⟩

/-- C6, amended: with no persisted prior record the scanner selects every
directory entry, sorted ascending by modification time with ties kept in
directory-listing order (Python's `sorted` is stable; the name is not part
of the key); in particular for distinct times 30, 0, 10 on files c, a, b
the processing order is a, b, c. -/
theorem offline_catchup_order (listing : List (Int × String)) :
    process_offline_select none listing = .ok (sort_by_mtime listing)
    ∧ List.Sorted keyLE (sort_by_mtime listing)
    ∧ (sort_by_mtime listing).Perm listing
    ∧ (∀ t : Int, (sort_by_mtime listing).filter (fun f => decide (f.1 = t))
        = listing.filter (fun f => decide (f.1 = t)))
    ∧ process_offline_select none [((30 : Int), "c"), ((0 : Int), "a"), ((10 : Int), "b")]
        = .ok [((0 : Int), "a"), ((10 : Int), "b"), ((30 : Int), "c")] :=
  ⟨rfl, sort_by_mtime_sorted listing, sort_by_mtime_perm listing,
   fun t => sort_by_mtime_stable t listing, rfl⟩

/-- When the base name and every probed variant exist, the probe loop falls
back to the (taken) base name. -/
theorem probe_all_taken (w : World) (out : String) :
    ∀ L : List Nat, (∀ i ∈ L, w.path_exists (out ++ "_" ++ fmt02 i) = true) →
      probe_variants w out L = out := by
  intro L
  induction L with
  | nil => intro _; rfl
  | cons a L2 ih =>
    intro h
    unfold probe_variants
    dsimp only
    rw [h a (List.mem_cons_self a L2)]
    simp only [eq_self_iff_true, if_true]
    exact ih (fun i hi => h i (List.mem_cons_of_mem a hi))

/-- Probing `range' s n` picks the first free variant. -/
theorem probe_first_free (w : World) (out : String) :
    ∀ (n s i : Nat), s ≤ i → i < s + n →
      w.path_exists (out ++ "_" ++ fmt02 i) = false →
      (∀ j, s ≤ j → j < i → w.path_exists (out ++ "_" ++ fmt02 j) = true) →
      probe_variants w out (List.range' s n) = out ++ "_" ++ fmt02 i := by
  intro n
  induction n with
  | zero =>
    intro s i h1 h2 _ _
    omega
  | succ n ih =>
    intro s i h1 h2 hfree htaken
    rw [show List.range' s (n + 1) = s :: List.range' (s + 1) n from rfl]
    unfold probe_variants
    dsimp only
    by_cases hsi : s = i
    · subst hsi
      rw [hfree]
      simp
    · have hlt : s < i := lt_of_le_of_ne h1 hsi
      rw [htaken s (le_refl s) hlt]
      simp only [eq_self_iff_true, if_true]
      exact ih (s + 1) i hlt (by omega) hfree (fun j hj1 hj2 => htaken j (by omega) hj2)

/-- C7: output-directory collision handling.  If the base timestamp name is
free it is chosen; if it is taken, exactly the variants `_01`…`_10` are
probed in order and the first free one is chosen; if the base name and all
ten variants are taken the allocation fails with `NonFatalError`; and a
successful allocation never names an existing directory (nothing is
overwritten). -/
theorem collision_probing (p : Pdf) (w : World) :
    (w.path_exists (out_base p) = false →
        p.get_new_out_dir_name w = .ok (out_base p))
    ∧ (w.path_exists (out_base p) = true →
        (∀ i ∈ List.range' 1 10, w.path_exists (out_variant p i) = true) →
        p.get_new_out_dir_name w = .error .nonFatal)
    ∧ (∀ i ∈ List.range' 1 10,
        w.path_exists (out_base p) = true →
        w.path_exists (out_variant p i) = false →
        (∀ j ∈ List.range' 1 10, j < i → w.path_exists (out_variant p j) = true) →
        p.get_new_out_dir_name w = .ok (out_variant p i))
    ∧ (∀ r, p.get_new_out_dir_name w = .ok r → w.path_exists r = false) := by
  refine ⟨?_, ?_, ?_, ?_⟩
  · intro h
    unfold Pdf.get_new_out_dir_name
    dsimp only
    rw [show path_join OUT_DIR p.timestamp = out_base p from rfl, h]
    simp
    exact h
  · intro hbase hall
    unfold Pdf.get_new_out_dir_name
    dsimp only
    rw [show path_join OUT_DIR p.timestamp = out_base p from rfl, hbase]
    simp only [if_true]
    rw [probe_all_taken w (out_base p) (List.range' 1 10) (fun i hi => hall i hi)]
    rw [hbase]
    rfl
  · intro i hi hbase hfree htaken
    obtain ⟨hi1, hi2⟩ := List.mem_range'_1.mp hi
    unfold Pdf.get_new_out_dir_name
    dsimp only
    rw [show path_join OUT_DIR p.timestamp = out_base p from rfl, hbase]
    simp only [if_true]
    rw [probe_first_free w (out_base p) 10 1 i hi1 (by omega) hfree
      (fun j hj1 hj2 => htaken j (List.mem_range'_1.mpr ⟨hj1, by omega⟩) hj2)]
    rw [show out_base p ++ "_" ++ fmt02 i = out_variant p i from rfl, hfree]
    rfl
  · intro r h
    unfold Pdf.get_new_out_dir_name at h
    dsimp only at h
    obtain ⟨o, ho⟩ : ∃ o,
        (if w.path_exists (path_join OUT_DIR p.timestamp) = true then
            probe_variants w (path_join OUT_DIR p.timestamp) (List.range' 1 10)
          else path_join OUT_DIR p.timestamp) = o := ⟨_, rfl⟩
    rw [ho] at h
    by_cases hfin : w.path_exists o = true
    · rw [if_pos hfin] at h
      simp at h
    · rw [if_neg hfin] at h
      injection h with h1
      rw [← h1]
      simpa using hfin

/-- C7, witness: with nothing taken the base name is allocated; with the
base and all ten variants taken the allocation fails non-fatally (nothing
is overwritten); with the base, `_01` and `_02` taken the first free
variant `_03` is chosen. -/
theorem collision_probing_witness :
    p7.get_new_out_dir_name emptyWorld = .ok (out_base p7)
    ∧ p7.get_new_out_dir_name wAll = .error .nonFatal
    ∧ p7.get_new_out_dir_name wSome = .ok (out_variant p7 3) :=
  ⟨(collision_probing p7 emptyWorld).1 rfl,
   (collision_probing p7 wAll).2.1 rfl (by decide),
   (collision_probing p7 wSome).2.2.1 3 (by decide) rfl rfl (by decide)⟩

/-- C8: merge-failure frame.  When a record's output has been placed, its
predecessor's output is placed, the pair is within the pairing window, and
some language's merge invocation fails, the whole processing fails with
`NonFatalError` but the filesystem keeps every directory exactly as the
placement left it and loses no file: the two standalone outputs are neither
deleted nor rolled back — only collated documents may be missing. -/
theorem merge_failure_frame (p q : Pdf) (env : Env) (temp : String) (w : World)
    (hprev : p.prev = some q) (hq : ∃ qo, q.out = some qo)
    (hplace : (p.place env temp w).2.isOk = true)
    (hnear : (p.mtime - q.mtime) % 86400 ≤ 60)
    (hfail : env.collate_ok "eng" = false ∨ env.collate_ok "deu" = false) :
    (p.process env temp w).2 = .error .nonFatal
    ∧ (p.process env temp w).1.dirs = (p.place env temp w).1.dirs
    ∧ (∀ f ∈ (p.place env temp w).1.files, f ∈ (p.process env temp w).1.files) := by
  obtain ⟨qo, hqo⟩ := hq
  obtain ⟨⟨w1, ep⟩, hpl⟩ : ∃ r, p.place env temp w = r := ⟨_, rfl⟩
  cases ep with
  | error e =>
    rw [hpl] at hplace
    simp [Except.isOk, Except.toBool] at hplace
  | ok pp =>
    obtain ⟨d, hpp, _⟩ := place_shape p env temp w pp (by rw [hpl])
    have hpp_prev : pp.prev = some q := by rw [hpp, Pdf.prev_withOut, hprev]
    have hpp_mtime : pp.mtime = p.mtime := by rw [hpp, Pdf.mtime_withOut]
    have hpp_out : pp.out = some d := by rw [hpp, Pdf.out_withOut]
    have hfl : (pp.collate q env w1).2 = .error .nonFatal :=
      collate_fail pp q env w1 qo d hqo hpp_out hfail
    rw [hpl]
    unfold Pdf.process
    rw [hpl]
    dsimp only
    rw [hpp_prev]
    dsimp only
    rw [if_neg (by rw [hpp_mtime]; omega)]
    obtain ⟨⟨w2, ec⟩, hc⟩ : ∃ r, pp.collate q env w1 = r := ⟨_, rfl⟩
    rw [hc] at hfl ⊢
    cases ec with
    | ok u => simp at hfl
    | error e =>
      dsimp only at hfl ⊢
      injection hfl with he
      subst he
      refine ⟨rfl, ?_, ?_⟩
      · have h2 := collate_dirs pp q env w1
        rw [hc] at h2
        exact h2
      · intro f hf
        have h2 := collate_go_files pp q env langs w1 f hf
        rw [show Pdf.collate_go pp q env langs w1 = (w2, .error .nonFatal) from hc] at h2
        exact h2

/-- C8, witness: for the concrete pair 60 seconds apart with OCR
succeeding and every merge invocation failing, processing fails non-fatally
while every directory and file the placement produced survives. -/
theorem merge_failure_frame_witness :
    (p60.process envCF "/t" emptyWorld).2 = .error .nonFatal
    ∧ (p60.process envCF "/t" emptyWorld).1.dirs = (p60.place envCF "/t" emptyWorld).1.dirs
    ∧ (∀ f ∈ (p60.place envCF "/t" emptyWorld).1.files,
        f ∈ (p60.process envCF "/t" emptyWorld).1.files) :=
  merge_failure_frame p60 q0 envCF "/t" emptyWorld rfl ⟨"/out/q", rfl⟩ rfl (by decide)
    (Or.inl rfl)

/-- C9: persistence ordering.  `save_latest` runs only after the record's
output has been moved into its permanent directory and any pairing attempt
has been resolved: on success the pickled state holds exactly the returned
record, whose output directory exists on disk (so `load()` after a restart
sees a record whose output directory exists); on any failure the pickled
state is untouched. -/
theorem persistence_ordering (fname : String) (jd : JobData) (prev : Option Pdf) (w : World) :
    (∀ pdf2, (process_one_file fname jd prev w).2 = .ok pdf2 →
        (process_one_file fname jd prev w).1.saved = some pdf2
        ∧ (process_one_file fname jd prev w).1.load_latest = some pdf2
        ∧ ∃ d, pdf2.out = some d ∧ d ∈ (process_one_file fname jd prev w).1.dirs)
    ∧ (∀ e, (process_one_file fname jd prev w).2 = .error e →
        (process_one_file fname jd prev w).1.saved = w.saved) := by
  constructor
  · intro pdf2 h
    obtain ⟨_, hout, hsaved⟩ := pof_ok_shape fname jd prev w pdf2 h
    exact ⟨hsaved, hsaved, hout⟩
  · intro e h
    exact pof_error_saved fname jd prev w e h

/-- C9, witness: a concrete successful run pickles exactly the returned
record, and its output directory `/out/ts100` is among the directories on
disk. -/
theorem persistence_ordering_witness :
    (process_one_file "f" jd1 none emptyWorld).1.saved
        = some (Pdf.mk "/input/f" 100 "ts100" (some "/out/ts100") none)
    ∧ (process_one_file "f" jd1 none emptyWorld).1.load_latest
        = some (Pdf.mk "/input/f" 100 "ts100" (some "/out/ts100") none)
    ∧ ∃ d, (Pdf.mk "/input/f" 100 "ts100" (some "/out/ts100") none).out = some d
        ∧ d ∈ (process_one_file "f" jd1 none emptyWorld).1.dirs :=
  (persistence_ordering "f" jd1 none emptyWorld).1
    (Pdf.mk "/input/f" 100 "ts100" (some "/out/ts100") none) rfl

/-- C10: reconciliation totality edge case.  With a persisted prior record
and an empty watched directory, the scanner evaluates `files[-1]` on an
empty list and fails with an IndexError before any emptiness check; only
the no-persisted-record case tolerates an empty directory, processing
nothing and returning none. -/
theorem reconciliation_empty_dir (p : Pdf) (jobs : String → JobData) (w : World) :
    process_offline_files (some p) [] jobs w = (w, .error .indexError)
    ∧ process_offline_files none [] jobs w = (w, .ok none) :=
  ⟨rfl, rfl⟩

end PdfCollate
